import Mathlib

/-!
Shallow embedding of the `problems` Go package (RFC7807 problem details):
the `Problem` value type, its `Set` attribute mutator, the `Marshal` /
`Unmarshal` flattening logic and the error-wrapping constructors, together
with proofs about them.  Go machine integers are modelled as `Int`, Go maps
as association lists with unique keys, and the JSON wire bytes as the flat
string-to-value mapping that `json.Marshal` encodes and `json.Unmarshal`
decodes.
-/

set_option maxHeartbeats 1000000

/-- Word-separator test of Go `strings.Title` dispatch, restricted to ASCII:
everything except letters, digits and underscore separates words. -/
def goIsSeparator (c : Char) : Bool :=
  !(c.isAlphanum || c == '_')

/-- `strings.Title`, character by character: a rune following a separator
(or starting the string) is title-cased, every other rune is left alone. -/
def goTitleAux : Bool → List Char → List Char
  | _, [] => []
  | prevSep, c :: cs =>
    (if prevSep then c.toUpper else c) :: goTitleAux (goIsSeparator c) cs

/-- Go `strings.Title` (ASCII model). -/
def goTitle (s : String) : String :=
  ⟨goTitleAux true s.data⟩

/-- Go `strings.ToLower` (ASCII model). -/
def goToLower (s : String) : String :=
  ⟨s.data.map Char.toLower⟩

/-- Decimal digits of a natural number, most significant first.  The fuel
argument (structurally decreasing) bounds the recursion depth; `n + 1`
steps always suffice. -/
def natDigitsGo : Nat → Nat → List Char
  | 0, _ => []
  | fuel + 1, n =>
    if n < 10 then [Char.ofNat (48 + n)]
    else natDigitsGo fuel (n / 10) ++ [Char.ofNat (48 + n % 10)]

def natDigits (n : Nat) : List Char :=
  natDigitsGo (n + 1) n

/-- Go `fmt.Sprint` of an `int` (decimal representation). -/
def intRepr (n : Int) : String :=
  if n < 0 then ⟨'-' :: natDigits n.natAbs⟩ else ⟨natDigits n.toNat⟩

/-- A JSON-representable value, the payload type for extension attributes
and for the flat wire mapping (`interface\x7b\x7d` holding decoded JSON data). -/
inductive Value where
  | vnull : Value
  | vbool : Bool → Value
  | vint : Int → Value
  | vstr : String → Value
  | varr : List Value → Value
  | vobj : List (String × Value) → Value

mutual

/-- Go `fmt.Sprint` on a decoded value (`%v` formatting).  The order in
which `fmt` prints map entries is abstracted as the list order. -/
def sprint : Value → String
  | .vnull => "<nil>"
  | .vbool b => if b then "true" else "false"
  | .vint n => intRepr n
  | .vstr s => s
  | .varr xs => "[" ++ sprintList xs ++ "]"
  | .vobj kvs => "map[" ++ sprintKVs kvs ++ "]"

def sprintList : List Value → String
  | [] => ""
  | x :: xs => sprint x ++ (if xs.isEmpty then "" else " ") ++ sprintList xs

def sprintKVs : List (String × Value) → String
  | [] => ""
  | (k, v) :: xs =>
    k ++ ":" ++ sprint v ++ (if xs.isEmpty then "" else " ") ++ sprintKVs xs

end

mutual

/-- A Go `error` value as the package can observe it: a plain error with a
message, a `*Problem` used as an error, or a `fmt.Errorf("...%w", e)` wrapper. -/
inductive GoErr where
  | plain : String → GoErr
  | probErr : Problem → GoErr
  | wrapErr : String → GoErr → GoErr

/-- The `Problem` struct: `Type`, `Title`, `Status`, `Detail`, `Instance`,
`Attributes` (a Go map, modelled as an association list with unique keys)
and the unexported `err` field. -/
inductive Problem where
  | mk : String → String → Int → String → String →
      List (String × Value) → Option GoErr → Problem

end

def Problem.ptype : Problem → String
  | .mk t _ _ _ _ _ _ => t

def Problem.title : Problem → String
  | .mk _ t _ _ _ _ _ => t

def Problem.status : Problem → Int
  | .mk _ _ s _ _ _ _ => s

def Problem.detail : Problem → String
  | .mk _ _ _ d _ _ _ => d

def Problem.inst : Problem → String
  | .mk _ _ _ _ i _ _ => i

def Problem.attributes : Problem → List (String × Value)
  | .mk _ _ _ _ _ a _ => a

def Problem.err : Problem → Option GoErr
  | .mk _ _ _ _ _ _ e => e

def Problem.withType : Problem → String → Problem
  | .mk _ ti st de i a e, t => .mk t ti st de i a e

def Problem.withTitle : Problem → String → Problem
  | .mk t _ st de i a e, ti => .mk t ti st de i a e

def Problem.withStatus : Problem → Int → Problem
  | .mk t ti _ de i a e, st => .mk t ti st de i a e

def Problem.withDetail : Problem → String → Problem
  | .mk t ti st _ i a e, de => .mk t ti st de i a e

def Problem.withInst : Problem → String → Problem
  | .mk t ti st de _ a e, i => .mk t ti st de i a e

def Problem.withAttributes : Problem → List (String × Value) → Problem
  | .mk t ti st de i _ e, a => .mk t ti st de i a e

/-- `New(status, message)`: sets `Status` and `Detail`, everything else
keeps its zero value (`nil` map modelled as the empty list). -/
def NewProblem (status : Int) (message : String) : Problem :=
  .mk "" "" status message "" [] none

/-- `(prob *Problem) Error()`: `fmt.Sprintf("%d: %s", prob.Status, prob.Detail)`. -/
def Problem.errorString (p : Problem) : String :=
  intRepr p.status ++ ": " ++ p.detail

/-- The message of a Go error: a wrapped error prints its format prefix
followed by the wrapped error's message. -/
def GoErr.message : GoErr → String
  | .plain s => s
  | .probErr p => p.errorString
  | .wrapErr pre e => pre ++ e.message

def Problem.withErr : Problem → Option GoErr → Problem
  | .mk t ti st de i a _, e => .mk t ti st de i a e

/-- `FromErrorWithStatus(status, err)`: `New(status, err.Error())` with
`prob.err = fmt.Errorf("Problem: %w", err)`. -/
def FromErrorWithStatus (status : Int) (e : GoErr) : Problem :=
  (NewProblem status e.message).withErr (some (.wrapErr "Problem: " e))

/-- `FromError(err)`: `FromErrorWithStatus(http.StatusInternalServerError, err)`. -/
def FromError (e : GoErr) : Problem :=
  FromErrorWithStatus 500 e

/-- `Wrap(err)`: a `*Problem` is returned unchanged, anything else goes
through `FromError`. -/
def Wrap (e : GoErr) : Problem :=
  match e with
  | .probErr p => p
  | _ => FromError e

/-- Go map lookup on the association-list model. -/
def lookupA : List (String × Value) → String → Option Value
  | [], _ => none
  | (k', v') :: rest, k => if k' = k then some v' else lookupA rest k

/-- Go map assignment `m[k] = v`: overwrite an existing entry, otherwise add. -/
def insertA : List (String × Value) → String → Value → List (String × Value)
  | [], k, v => [(k, v)]
  | (k', v') :: rest, k, v =>
    if k' = k then (k', v) :: rest else (k', v') :: insertA rest k v

def keysA (m : List (String × Value)) : List String :=
  m.map Prod.fst

def containsA (m : List (String × Value)) (k : String) : Bool :=
  (lookupA m k).isSome

/-- The failure value built by `Set`'s guard path: `FromError(prob)` with
`Detail` overwritten.  (`PrettyPrint` is a pure console side effect.) -/
def setGuardFailure (p : Problem) : Problem :=
  (FromError (.probErr p)).withDetail "Cannot set extended attributes unless Type is set"

/-- `(prob *Problem) Set(key, value)`: dispatch on `strings.Title(key)`;
`ok` carries the mutated problem, `error` the returned failure value. -/
def Problem.set (p : Problem) (key : String) (value : Value) : Except Problem Problem :=
  let t := goTitle key
  if t = "Title" then .ok (p.withTitle (sprint value))
  else if t = "Status" then .error (NewProblem 500 "Cannot set status with Set")
  else if t = "Type" then .ok (p.withType (sprint value))
  else if t = "Detail" then .ok (p.withDetail (sprint value))
  else if t = "Instance" then .ok (p.withInst (sprint value))
  else if p.ptype = "" ∨ p.ptype = "about:blank" then .error (setGuardFailure p)
  else .ok (p.withAttributes (insertA p.attributes key value))

/-- `http.StatusText`: the standard reason phrase for a status code, or the
empty string for an unrecognized code. -/
def statusText (status : Int) : String :=
  match status with
  | 100 => "Continue"
  | 101 => "Switching Protocols"
  | 102 => "Processing"
  | 103 => "Early Hints"
  | 200 => "OK"
  | 201 => "Created"
  | 202 => "Accepted"
  | 203 => "Non-Authoritative Information"
  | 204 => "No Content"
  | 205 => "Reset Content"
  | 206 => "Partial Content"
  | 207 => "Multi-Status"
  | 208 => "Already Reported"
  | 226 => "IM Used"
  | 300 => "Multiple Choices"
  | 301 => "Moved Permanently"
  | 302 => "Found"
  | 303 => "See Other"
  | 304 => "Not Modified"
  | 305 => "Use Proxy"
  | 307 => "Temporary Redirect"
  | 308 => "Permanent Redirect"
  | 400 => "Bad Request"
  | 401 => "Unauthorized"
  | 402 => "Payment Required"
  | 403 => "Forbidden"
  | 404 => "Not Found"
  | 405 => "Method Not Allowed"
  | 406 => "Not Acceptable"
  | 407 => "Proxy Authentication Required"
  | 408 => "Request Timeout"
  | 409 => "Conflict"
  | 410 => "Gone"
  | 411 => "Length Required"
  | 412 => "Precondition Failed"
  | 413 => "Request Entity Too Large"
  | 414 => "Request URI Too Long"
  | 415 => "Unsupported Media Type"
  | 416 => "Requested Range Not Satisfiable"
  | 417 => "Expectation Failed"
  | 418 => "I\x27m a teapot"
  | 421 => "Misdirected Request"
  | 422 => "Unprocessable Entity"
  | 423 => "Locked"
  | 424 => "Failed Dependency"
  | 425 => "Too Early"
  | 426 => "Upgrade Required"
  | 428 => "Precondition Required"
  | 429 => "Too Many Requests"
  | 431 => "Request Header Fields Too Large"
  | 451 => "Unavailable For Legal Reasons"
  | 500 => "Internal Server Error"
  | 501 => "Not Implemented"
  | 502 => "Bad Gateway"
  | 503 => "Service Unavailable"
  | 504 => "Gateway Timeout"
  | 505 => "HTTP Version Not Supported"
  | 506 => "Variant Also Negotiates"
  | 507 => "Insufficient Storage"
  | 508 => "Loop Detected"
  | 510 => "Not Extended"
  | 511 => "Network Authentication Required"
  | _ => ""

/-- `(p *Problem) GetTitle()`: the title, or the standard reason phrase for
the status when the title is empty. -/
def Problem.getTitle (p : Problem) : String :=
  if p.title.length = 0 then statusText p.status else p.title

/-- `field.Tag.Lookup(string(renderAs))`: of the five serialized fields only
`Type` and `Instance` carry tags, and only in the `json` namespace. -/
def tagFor (renderAs : String) (jsonTag : Option String) : Option String :=
  if renderAs = "json" then jsonTag else none

/-- The struct fields `Marshal` iterates over with reflection, in
declaration order (name, json tag, value); `Attributes` and `err` are
excluded by name in the loop. -/
def fieldsList (p : Problem) : List (String × Option String × Value) :=
  [("Type", some "type,omitempty", .vstr p.ptype),
   ("Title", none, .vstr p.title),
   ("Status", none, .vint p.status),
   ("Detail", none, .vstr p.detail),
   ("Instance", some "instance,omitempty", .vstr p.inst)]

/-- `strings.Split(key, ",")[0]`. -/
def beforeComma : List Char → List Char
  | [] => []
  | c :: cs => if c = ',' then [] else c :: beforeComma cs

def hasOmitemptySuffix (s : String) : Bool :=
  "omitempty".data.isSuffixOf s.data

/-- One iteration of the reflection loop: resolve the output key from the
tag (or the field name), honour `omitempty`, lower-case the key. -/
def fieldKeyValue (renderAs : String) (f : String × Option String × Value) :
    Option (String × Value) :=
  let key0 := (tagFor renderAs f.2.1).getD f.1
  if hasOmitemptySuffix key0 ∧ (sprint f.2.2).length = 0 then none
  else some (goToLower ⟨beforeComma key0.data⟩, f.2.2)

/-- The five fixed fields of the output mapping. -/
def fieldsOut (p : Problem) (renderAs : String) : List (String × Value) :=
  (fieldsList p).foldl
    (fun out f =>
      match fieldKeyValue renderAs f with
      | none => out
      | some (k, v) => insertA out k v) []

/-- `(prob *Problem) Marshal(renderAs)`.  The first component is the
problem state after the call (the Go method mutates its receiver: `Type`
is defaulted to `about:blank` and `Title` resolved via `GetTitle`); the
second is the returned flat mapping, or the returned error.  `json.Marshal`
of a string-keyed map of decoded values always succeeds and is modelled as
the map itself; `xml.Marshal` rejects a Go map, so the xml branch returns
its unsupported-type error.  The nested `MarshalJSON` call on a `*Problem`
cause also normalizes that nested value in place; only its `Status` and
`Detail` are read afterwards (via `Error()`), and those are never changed
by marshaling, so that inner update is not threaded through. -/
def marshal : Problem → String → Problem × Except GoErr (List (String × Value))
  | .mk ty ti st de i attrs errOpt, renderAs =>
    let ty1 := if ty = "" then "about:blank" else ty
    let p1 : Problem := .mk ty1 ti st de i attrs errOpt
    let p2 := p1.withTitle p1.getTitle
    let out0 := fieldsOut p2 renderAs
    let out1 :=
      match errOpt with
      | none => out0
      | some e =>
        if ty1 ≠ "about:blank" then
          let outNested :=
            match e with
            | .probErr q =>
              match (marshal q "json").2 with
              | .ok j => insertA out0 "error" (.vobj j)
              | .error _ => out0
            | _ => out0
          insertA outNested "error" (.vstr e.message)
        else out0
    let out2 := attrs.foldl (fun m kv => insertA m (goToLower kv.1) kv.2) out1
    if renderAs = "json" then (p2, .ok out2)
    else if renderAs = "xml" then
      (p2, .error (.plain "xml: unsupported type: map[string]interface \x7b\x7d"))
    else (p2, .error (.probErr (NewProblem 500 "Invalid Marshal type specified")))

def isDigitCode (c : Char) : Bool :=
  48 ≤ c.toNat && c.toNat ≤ 57

def digitsVal (l : List Char) : Nat :=
  l.foldl (fun a c => a * 10 + (c.toNat - 48)) 0

def parseNatDigits (l : List Char) : Option Nat :=
  if l ≠ [] ∧ l.all isDigitCode then some (digitsVal l) else none

def atoiFailure (s : String) : GoErr :=
  .plain ("strconv.Atoi: parsing \x22" ++ s ++ "\x22: invalid syntax")

/-- `strconv.Atoi` on the character list: an optional sign followed by at
least one digit. -/
def goAtoiL : List Char → Option Int
  | '-' :: rest => (parseNatDigits rest).map (fun n => -(Int.ofNat n))
  | '+' :: rest => (parseNatDigits rest).map Int.ofNat
  | l => (parseNatDigits l).map Int.ofNat

/-- `strconv.Atoi`: parse the decimal integer, or fail with the
`invalid syntax` error. -/
def goAtoi (s : String) : Except GoErr Int :=
  match goAtoiL s.data with
  | some n => .ok n
  | none => .error (atoiFailure s)

/-- The per-key loop of `Unmarshal`: dispatch on `strings.Title(k)`, parse
`status` with `Atoi` (failing with `FromError`), collect everything else
into `Attributes` verbatim.  Go map iteration order is modelled as the
list order of the decoded mapping. -/
def unmarshalEntries (p : Problem) : List (String × Value) → Except Problem Problem
  | [] => .ok p
  | (k, v) :: rest =>
    let t := goTitle k
    if t = "Type" then unmarshalEntries (p.withType (sprint v)) rest
    else if t = "Title" then unmarshalEntries (p.withTitle (sprint v)) rest
    else if t = "Status" then
      match goAtoi (sprint v) with
      | .error e => .error (FromError e)
      | .ok n => unmarshalEntries (p.withStatus n) rest
    else if t = "Detail" then unmarshalEntries (p.withDetail (sprint v)) rest
    else if t = "Instance" then unmarshalEntries (p.withInst (sprint v)) rest
    else unmarshalEntries (p.withAttributes (insertA p.attributes k v)) rest

/-- `(prob *Problem) Unmarshal(renderAs, data)`: decode the wire bytes into
a flat mapping (for json this is the identity on the modelled bytes; xml
cannot decode into a Go map and fails), reset `Attributes`, then run the
per-key loop. -/
def unmarshal (p : Problem) (renderAs : String) (data : List (String × Value)) :
    Except Problem Problem :=
  if renderAs = "json" then unmarshalEntries (p.withAttributes []) data
  else if renderAs = "xml" then
    .error (FromError (.plain "unknown type map[string]interface \x7b\x7d"))
  else .error (NewProblem 500 (renderAs ++ " is an invalid type"))

def fixedFieldTitles : List String := ["Title", "Status", "Type", "Detail", "Instance"]

def fixedFieldNames : List String := ["type", "title", "status", "detail", "instance"]

def zeroProblem : Problem := .mk "" "" 0 "" "" [] none

/-- `(Char.ofNat n).toNat = n` for a valid code point. -/
theorem charToNat_ofNat_of_valid (n : Nat) (h : n.isValidChar) :
    (Char.ofNat n).toNat = n := by
  simp only [Char.ofNat, dif_pos h, Char.ofNatAux, Char.toNat, UInt32.toNat]
  simp [BitVec.toNat_ofNatLt]

theorem charToNat_ofNat_small (n : Nat) (h : n < 256) :
    (Char.ofNat n).toNat = n :=
  charToNat_ofNat_of_valid n (Or.inl (by omega))

theorem char_eq_of_toNat_eq {a b : Char} (h : a.toNat = b.toNat) : a = b := by
  have := congrArg Char.ofNat h
  rwa [Char.ofNat_toNat, Char.ofNat_toNat] at this

/-- `c.toUpper` in terms of code points; core `Char.toUpper` agrees with Go
`unicode.ToTitle` on ASCII. -/
theorem toNat_toUpper (c : Char) :
    c.toUpper.toNat = if 97 ≤ c.toNat ∧ c.toNat ≤ 122 then c.toNat - 32 else c.toNat := by
  simp only [Char.toUpper]
  split
  · next h => exact charToNat_ofNat_of_valid _ (Or.inl (by omega))
  · rfl

/-- `c.toLower` in terms of code points; core `Char.toLower` agrees with Go
`unicode.ToLower` on ASCII. -/
theorem toNat_toLower (c : Char) :
    c.toLower.toNat = if 65 ≤ c.toNat ∧ c.toNat ≤ 90 then c.toNat + 32 else c.toNat := by
  simp only [Char.toLower]
  split
  · next h => exact charToNat_ofNat_of_valid _ (Or.inl (by omega))
  · rfl

theorem toLower_toLower (c : Char) : c.toLower.toLower = c.toLower := by
  apply char_eq_of_toNat_eq
  rw [toNat_toLower, toNat_toLower]
  split_ifs <;> omega

theorem toLower_toUpper (c : Char) : c.toUpper.toLower = c.toLower := by
  apply char_eq_of_toNat_eq
  rw [toNat_toLower, toNat_toUpper, toNat_toLower]
  split_ifs <;> omega

theorem goTitleAux_map_toLower (b : Bool) (l : List Char) :
    (goTitleAux b l).map Char.toLower = l.map Char.toLower := by
  induction l generalizing b with
  | nil => rfl
  | cons c cs ih =>
    simp only [goTitleAux, List.map_cons, ih]
    by_cases h : b
    · simp [h, toLower_toUpper]
    · simp [h]

/-- Title-casing never changes the lower-cased form of a string. -/
theorem goToLower_goTitle (s : String) : goToLower (goTitle s) = goToLower s := by
  simp [goToLower, goTitle, goTitleAux_map_toLower]

theorem goToLower_goToLower (s : String) :
    goToLower (goToLower s) = goToLower s := by
  simp [goToLower, List.map_map, Function.comp_def, toLower_toLower]

theorem string_length_eq_zero {s : String} : s.length = 0 ↔ s = "" := by
  constructor
  · intro h
    obtain ⟨l⟩ := s
    apply String.ext
    simpa using List.length_eq_zero.mp (by simpa [String.length] using h)
  · rintro rfl
    rfl

theorem lookupA_insertA_self (m : List (String × Value)) (k : String) (v : Value) :
    lookupA (insertA m k v) k = some v := by
  induction m with
  | nil => simp [insertA, lookupA]
  | cons kv rest ih =>
    obtain ⟨k', v'⟩ := kv
    by_cases h : k' = k
    · simp [insertA, lookupA, h]
    · simp [insertA, lookupA, h, ih]

theorem lookupA_insertA_ne (m : List (String × Value)) (k k' : String) (v : Value)
    (h : k ≠ k') : lookupA (insertA m k v) k' = lookupA m k' := by
  induction m with
  | nil => simp [insertA, lookupA, h]
  | cons kv rest ih =>
    obtain ⟨k0, v0⟩ := kv
    by_cases h0 : k0 = k
    · subst h0
      simp [insertA, lookupA, h]
    · simp [insertA, lookupA, h0, ih]

theorem insertA_of_not_mem (m : List (String × Value)) (k : String) (v : Value)
    (h : k ∉ keysA m) : insertA m k v = m ++ [(k, v)] := by
  induction m with
  | nil => simp [insertA]
  | cons kv rest ih =>
    obtain ⟨k0, v0⟩ := kv
    simp only [keysA, List.map_cons, List.mem_cons] at h
    push_neg at h
    simp [insertA, Ne.symm h.1, ih (by simp [keysA, h.2])]

theorem keysA_insertA_subset (m : List (String × Value)) (k : String) (v : Value) :
    ∀ k' ∈ keysA (insertA m k v), k' = k ∨ k' ∈ keysA m := by
  induction m with
  | nil => simp [insertA, keysA]
  | cons kv rest ih =>
    obtain ⟨k0, v0⟩ := kv
    by_cases h0 : k0 = k
    · subst h0
      intro k' hk'
      right
      simpa [insertA, keysA] using hk'
    · intro k' hk'
      simp only [insertA, if_neg h0, keysA, List.map_cons, List.mem_cons] at hk'
      rcases hk' with rfl | hk'
      · simp [keysA]
      · rcases ih k' hk' with rfl | h
        · simp
        · simp [keysA] at h ⊢
          tauto

theorem containsA_insertA_of (m : List (String × Value)) (k k' : String) (v : Value)
    (h : containsA m k' = true) : containsA (insertA m k v) k' = true := by
  by_cases hk : k = k'
  · subst hk
    simp [containsA, lookupA_insertA_self]
  · simpa [containsA, lookupA_insertA_ne m k k' v hk] using h

theorem containsA_insertA_self (m : List (String × Value)) (k : String) (v : Value) :
    containsA (insertA m k v) k = true := by
  simp [containsA, lookupA_insertA_self]

-- per-field computation lemmas
theorem tagFor_json (t : Option String) : tagFor "json" t = t := by
  simp [tagFor]

theorem fieldKeyValue_TypeF (ty : String) (h : ty ≠ "") :
    fieldKeyValue "json" ("Type", some "type,omitempty", .vstr ty) = some ("type", .vstr ty) := by
  simp only [fieldKeyValue, tagFor_json, Option.getD_some, sprint]
  rw [if_neg (fun hc => h (string_length_eq_zero.mp hc.2))]
  rw [show goToLower ⟨beforeComma "type,omitempty".data⟩ = "type" from by decide]

theorem fieldKeyValue_TypeF_empty :
    fieldKeyValue "json" ("Type", some "type,omitempty", .vstr "") = none := rfl

theorem fieldKeyValue_TitleF (ti : String) :
    fieldKeyValue "json" ("Title", none, .vstr ti) = some ("title", .vstr ti) := by
  simp only [fieldKeyValue, tagFor_json, Option.getD_none, sprint]
  rw [if_neg (fun hc => absurd hc.1 (by decide))]
  rw [show goToLower ⟨beforeComma "Title".data⟩ = "title" from by decide]

theorem fieldKeyValue_StatusF (n : Int) :
    fieldKeyValue "json" ("Status", none, .vint n) = some ("status", .vint n) := by
  simp only [fieldKeyValue, tagFor_json, Option.getD_none, sprint]
  rw [if_neg (fun hc => absurd hc.1 (by decide))]
  rw [show goToLower ⟨beforeComma "Status".data⟩ = "status" from by decide]

theorem fieldKeyValue_DetailF (de : String) :
    fieldKeyValue "json" ("Detail", none, .vstr de) = some ("detail", .vstr de) := by
  simp only [fieldKeyValue, tagFor_json, Option.getD_none, sprint]
  rw [if_neg (fun hc => absurd hc.1 (by decide))]
  rw [show goToLower ⟨beforeComma "Detail".data⟩ = "detail" from by decide]

theorem fieldKeyValue_InstanceF (i : String) (h : i ≠ "") :
    fieldKeyValue "json" ("Instance", some "instance,omitempty", .vstr i) =
      some ("instance", .vstr i) := by
  simp only [fieldKeyValue, tagFor_json, Option.getD_some, sprint]
  rw [if_neg (fun hc => h (string_length_eq_zero.mp hc.2))]
  rw [show goToLower ⟨beforeComma "instance,omitempty".data⟩ = "instance" from by decide]

theorem fieldKeyValue_InstanceF_empty :
    fieldKeyValue "json" ("Instance", some "instance,omitempty", .vstr "") = none := rfl

/-- Closed form of the fixed-field part of the json output mapping, for a
problem whose type is non-empty. -/
theorem fieldsOut_json (ty ti de i : String) (stN : Int) (attrs : List (String × Value))
    (e : Option GoErr) (h : ty ≠ "") :
    fieldsOut (.mk ty ti stN de i attrs e) "json" =
      ("type", .vstr ty) :: ("title", .vstr ti) :: ("status", .vint stN) ::
      ("detail", .vstr de) :: (if i = "" then [] else [("instance", .vstr i)]) := by
  by_cases hi : i = ""
  · subst hi
    simp +decide [fieldsOut, fieldsList, Problem.ptype, Problem.title,
      Problem.status, Problem.detail, Problem.inst,
      fieldKeyValue_TypeF ty h, fieldKeyValue_TitleF, fieldKeyValue_StatusF,
      fieldKeyValue_DetailF, fieldKeyValue_InstanceF_empty, insertA]
  · simp +decide [fieldsOut, fieldsList, Problem.ptype, Problem.title,
      Problem.status, Problem.detail, Problem.inst,
      fieldKeyValue_TypeF ty h, fieldKeyValue_TitleF, fieldKeyValue_StatusF,
      fieldKeyValue_DetailF, fieldKeyValue_InstanceF i hi, insertA, hi]

theorem natDigitsGo_ne_nil (fuel n : Nat) (h : 0 < fuel) : natDigitsGo fuel n ≠ [] := by
  match fuel with
  | 0 => omega
  | fuel + 1 =>
    rw [natDigitsGo]
    split
    · exact List.cons_ne_nil _ _
    · intro hc
      exact absurd (List.append_eq_nil.mp hc).2 (List.cons_ne_nil _ _)

theorem natDigits_ne_nil (n : Nat) : natDigits n ≠ [] :=
  natDigitsGo_ne_nil (n + 1) n (Nat.succ_pos n)

theorem natDigitsGo_all_digits (fuel : Nat) : ∀ n, (natDigitsGo fuel n).all isDigitCode = true := by
  induction fuel with
  | zero => intro n; rfl
  | succ fuel ih =>
    intro n
    rw [natDigitsGo]
    split
    · next h =>
      simp only [List.all_cons, List.all_nil, Bool.and_true, isDigitCode,
        charToNat_ofNat_small (48 + n) (by omega), Bool.and_eq_true, decide_eq_true_eq]
      omega
    · next h =>
      rw [List.all_append]
      simp only [Bool.and_eq_true]
      refine ⟨ih (n / 10), ?_⟩
      have hm : n % 10 < 10 := Nat.mod_lt _ (by omega)
      simp only [List.all_cons, List.all_nil, Bool.and_true, isDigitCode,
        charToNat_ofNat_small (48 + n % 10) (by omega), Bool.and_eq_true, decide_eq_true_eq]
      omega

theorem natDigits_all_digits (n : Nat) : (natDigits n).all isDigitCode = true :=
  natDigitsGo_all_digits (n + 1) n

theorem digitsVal_append (l : List Char) (c : Char) :
    digitsVal (l ++ [c]) = 10 * digitsVal l + (c.toNat - 48) := by
  simp only [digitsVal, List.foldl_append, List.foldl_cons, List.foldl_nil]
  omega

theorem digitsVal_natDigitsGo (fuel : Nat) :
    ∀ n, n < 10 ^ fuel → digitsVal (natDigitsGo fuel n) = n := by
  induction fuel with
  | zero =>
    intro n h
    simp only [pow_zero, Nat.lt_one_iff] at h
    subst h
    rfl
  | succ fuel ih =>
    intro n h
    rw [natDigitsGo]
    split
    · next h10 =>
      simp [digitsVal, charToNat_ofNat_small (48 + n) (by omega)]
    · next h10 =>
      have hdiv : n / 10 < 10 ^ fuel := by
        rw [pow_succ, Nat.mul_comm] at h
        exact Nat.div_lt_of_lt_mul h
      rw [digitsVal_append, ih (n / 10) hdiv,
        charToNat_ofNat_small (48 + n % 10) (by omega)]
      omega

theorem digitsVal_natDigits (n : Nat) : digitsVal (natDigits n) = n := by
  have hlt : n < 10 ^ (n + 1) :=
    lt_of_lt_of_le (Nat.lt_pow_self (by norm_num) n)
      (Nat.pow_le_pow_right (by norm_num) (Nat.le_succ n))
  exact digitsVal_natDigitsGo (n + 1) n hlt

theorem parseNatDigits_natDigits (n : Nat) :
    parseNatDigits (natDigits n) = some n := by
  rw [parseNatDigits, if_pos ⟨natDigits_ne_nil n, natDigits_all_digits n⟩,
    digitsVal_natDigits]

theorem natDigits_head_digit (n : Nat) :
    ∀ c ∈ natDigits n, isDigitCode c = true := by
  intro c hc
  have := natDigits_all_digits n
  rw [List.all_eq_true] at this
  exact this c hc

theorem data_mk (l : List Char) : (⟨l⟩ : String).data = l := rfl

theorem goAtoiL_natDigits (m : Nat) : goAtoiL (natDigits m) = some (Int.ofNat m) := by
  rw [goAtoiL.eq_def]
  split
  · next rest heq =>
    have := natDigits_head_digit m '-' (by rw [heq]; exact List.mem_cons_self _ _)
    exact absurd this (by decide)
  · next rest heq =>
    have := natDigits_head_digit m '+' (by rw [heq]; exact List.mem_cons_self _ _)
    exact absurd this (by decide)
  · rw [parseNatDigits_natDigits]
    rfl

/-- `Atoi` is a left inverse of the decimal printer on every `Int`. -/
theorem goAtoi_intRepr (n : Int) : goAtoi (intRepr n) = .ok n := by
  by_cases hn : n < 0
  · rw [intRepr, if_pos hn, goAtoi, data_mk]
    rw [show goAtoiL ('-' :: natDigits n.natAbs) =
      (parseNatDigits (natDigits n.natAbs)).map (fun k => -(Int.ofNat k)) from rfl]
    rw [parseNatDigits_natDigits]
    rw [show (some n.natAbs).map (fun k : Nat => -(Int.ofNat k)) = some (-(Int.ofNat n.natAbs)) from rfl]
    rw [show -(Int.ofNat n.natAbs) = n from by rw [Int.ofNat_eq_coe]; omega]
  · rw [intRepr, if_neg hn, goAtoi, data_mk, goAtoiL_natDigits]
    rw [show Int.ofNat n.toNat = n from by rw [Int.ofNat_eq_coe]; omega]

theorem lookupA_mergeAttrs_of_ne (attrs : List (String × Value)) (out : List (String × Value))
    (key : String) (h : ∀ kv ∈ attrs, goToLower kv.1 ≠ key) :
    lookupA (attrs.foldl (fun m kv => insertA m (goToLower kv.1) kv.2) out) key =
      lookupA out key := by
  induction attrs generalizing out with
  | nil => rfl
  | cons kv rest ih =>
    rw [List.foldl_cons, ih _ (fun kv' hkv' => h kv' (List.mem_cons_of_mem _ hkv')),
      lookupA_insertA_ne _ _ _ _ (h kv (List.mem_cons_self _ _))]

theorem containsA_mergeAttrs_mono (attrs : List (String × Value)) (out : List (String × Value))
    (key : String) (h : containsA out key = true) :
    containsA (attrs.foldl (fun m kv => insertA m (goToLower kv.1) kv.2) out) key = true := by
  induction attrs generalizing out with
  | nil => exact h
  | cons kv rest ih =>
    rw [List.foldl_cons]
    exact ih _ (containsA_insertA_of _ _ _ _ h)

theorem mergeAttrs_append (attrs : List (String × Value)) (out : List (String × Value))
    (hlow : ∀ kv ∈ attrs, goToLower kv.1 = kv.1)
    (hnodup : (attrs.map Prod.fst).Nodup)
    (hdisj : ∀ kv ∈ attrs, kv.1 ∉ keysA out) :
    attrs.foldl (fun m kv => insertA m (goToLower kv.1) kv.2) out = out ++ attrs := by
  induction attrs generalizing out with
  | nil => simp
  | cons kv rest ih =>
    obtain ⟨k, v⟩ := kv
    rw [List.foldl_cons]
    have hk : goToLower k = k := hlow _ (List.mem_cons_self _ _)
    rw [hk, insertA_of_not_mem _ _ _ (hdisj _ (List.mem_cons_self _ _))]
    rw [ih _ (fun kv' hkv' => hlow kv' (List.mem_cons_of_mem _ hkv'))
      (by simpa using hnodup.of_cons)]
    · simp
    · intro kv' hkv'
      simp only [keysA, List.map_append, List.map_cons, List.map_nil, List.mem_append,
        List.mem_cons, List.not_mem_nil, or_false]
      push_neg
      refine ⟨?_, ?_⟩
      · have := hdisj kv' (List.mem_cons_of_mem _ hkv')
        simpa [keysA] using this
      · intro hek
        rw [List.map_cons, List.nodup_cons] at hnodup
        have hm : kv'.1 ∈ List.map Prod.fst rest := List.mem_map_of_mem Prod.fst hkv'
        rw [hek] at hm
        exact hnodup.1 hm

theorem lookupA_mergeAttrs_self (attrs : List (String × Value)) (out : List (String × Value))
    (hnodup : (attrs.map (fun kv => goToLower kv.1)).Nodup) :
    ∀ kv ∈ attrs, lookupA (attrs.foldl (fun m kv => insertA m (goToLower kv.1) kv.2) out)
      (goToLower kv.1) = some kv.2 := by
  induction attrs generalizing out with
  | nil => simp
  | cons kv0 rest ih =>
    intro kv hkv
    rcases List.mem_cons.mp hkv with rfl | hkv'
    · rw [List.foldl_cons]
      rw [List.map_cons, List.nodup_cons] at hnodup
      rw [lookupA_mergeAttrs_of_ne _ _ _ (fun kv' hkv' => ?_), lookupA_insertA_self]
      intro he
      have hm : goToLower kv'.1 ∈ List.map (fun kv => goToLower kv.1) rest :=
        List.mem_map_of_mem (fun kv => goToLower kv.1) hkv'
      rw [he] at hm
      exact hnodup.1 hm
    · rw [List.foldl_cons]
      exact ih _ (by simpa using hnodup.of_cons) kv hkv'

theorem keysA_mergeAttrs (attrs : List (String × Value)) (out : List (String × Value)) :
    ∀ k ∈ keysA (attrs.foldl (fun m kv => insertA m (goToLower kv.1) kv.2) out),
      k ∈ keysA out ∨ ∃ kv ∈ attrs, k = goToLower kv.1 := by
  induction attrs generalizing out with
  | nil => intro k hk; exact Or.inl hk
  | cons kv0 rest ih =>
    intro k hk
    rw [List.foldl_cons] at hk
    rcases ih _ k hk with hin | ⟨kv, hkv, rfl⟩
    · rcases keysA_insertA_subset _ _ _ _ hin with rfl | h
      · exact Or.inr ⟨kv0, List.mem_cons_self _ _, rfl⟩
      · exact Or.inl h
    · exact Or.inr ⟨kv, List.mem_cons_of_mem _ hkv, rfl⟩

theorem keysA_append (a b : List (String × Value)) :
    keysA (a ++ b) = keysA a ++ keysA b := by
  simp [keysA]

theorem goToLower_eq_of_goTitle {k n : String} (h : goTitle k = n) :
    goToLower k = goToLower n := by
  rw [← goToLower_goTitle, h]

theorem goTitle_not_fixed_of_lower (k : String) (h : goToLower k ∉ fixedFieldNames) :
    goTitle k ∉ fixedFieldTitles := by
  intro hmem
  apply h
  rcases (by simpa [fixedFieldTitles] using hmem : goTitle k = "Title" ∨ goTitle k = "Status" ∨
      goTitle k = "Type" ∨ goTitle k = "Detail" ∨ goTitle k = "Instance") with h' | h' | h' | h' | h' <;>
    rw [goToLower_eq_of_goTitle h'] <;> decide

-- accessor and updater interaction
theorem status_withTitle (p : Problem) (s : String) : (p.withTitle s).status = p.status := by
  cases p; rfl

theorem status_withType (p : Problem) (s : String) : (p.withType s).status = p.status := by
  cases p; rfl

theorem status_withDetail (p : Problem) (s : String) : (p.withDetail s).status = p.status := by
  cases p; rfl

theorem status_withInst (p : Problem) (s : String) : (p.withInst s).status = p.status := by
  cases p; rfl

theorem status_withAttributes (p : Problem) (a : List (String × Value)) :
    (p.withAttributes a).status = p.status := by
  cases p; rfl

theorem attributes_withTitle (p : Problem) (s : String) :
    (p.withTitle s).attributes = p.attributes := by
  cases p; rfl

theorem attributes_withType (p : Problem) (s : String) :
    (p.withType s).attributes = p.attributes := by
  cases p; rfl

theorem attributes_withDetail (p : Problem) (s : String) :
    (p.withDetail s).attributes = p.attributes := by
  cases p; rfl

theorem attributes_withInst (p : Problem) (s : String) :
    (p.withInst s).attributes = p.attributes := by
  cases p; rfl

theorem attributes_withAttributes (p : Problem) (a : List (String × Value)) :
    (p.withAttributes a).attributes = a := by
  cases p; rfl

theorem ptype_withAttributes (p : Problem) (a : List (String × Value)) :
    (p.withAttributes a).ptype = p.ptype := by
  cases p; rfl

-- Set reductions
theorem set_of_goTitle_Status (p : Problem) (k : String) (v : Value)
    (hk : goTitle k = "Status") :
    p.set k v = .error (NewProblem 500 "Cannot set status with Set") := by
  simp +decide only [Problem.set, hk, if_true, if_false]

theorem set_of_goTitle_other (p : Problem) (k : String) (v : Value)
    (hk : goTitle k ∉ fixedFieldTitles) :
    p.set k v =
      if p.ptype = "" ∨ p.ptype = "about:blank" then .error (setGuardFailure p)
      else .ok (p.withAttributes (insertA p.attributes k v)) := by
  have h1 : ¬goTitle k = "Title" := fun hh => hk (by rw [hh]; decide)
  have h2 : ¬goTitle k = "Status" := fun hh => hk (by rw [hh]; decide)
  have h3 : ¬goTitle k = "Type" := fun hh => hk (by rw [hh]; decide)
  have h4 : ¬goTitle k = "Detail" := fun hh => hk (by rw [hh]; decide)
  have h5 : ¬goTitle k = "Instance" := fun hh => hk (by rw [hh]; decide)
  simp only [Problem.set, h1, h2, h3, h4, h5, if_false]

theorem set_status_preserved (p : Problem) (k : String) (v : Value) (q : Problem)
    (h : p.set k v = .ok q) : q.status = p.status := by
  simp only [Problem.set] at h
  split_ifs at h
  · injection h with h'
    subst h'
    exact status_withTitle p _
  · injection h with h'
    subst h'
    exact status_withType p _
  · injection h with h'
    subst h'
    exact status_withDetail p _
  · injection h with h'
    subst h'
    exact status_withInst p _
  · injection h with h'
    subst h'
    exact status_withAttributes p _

-- Unmarshal reductions
theorem unmarshalEntries_cons_other (p : Problem) (k : String) (v : Value)
    (rest : List (String × Value)) (hk : goTitle k ∉ fixedFieldTitles) :
    unmarshalEntries p ((k, v) :: rest) =
      unmarshalEntries (p.withAttributes (insertA p.attributes k v)) rest := by
  have h1 : ¬goTitle k = "Title" := fun hh => hk (by rw [hh]; decide)
  have h2 : ¬goTitle k = "Status" := fun hh => hk (by rw [hh]; decide)
  have h3 : ¬goTitle k = "Type" := fun hh => hk (by rw [hh]; decide)
  have h4 : ¬goTitle k = "Detail" := fun hh => hk (by rw [hh]; decide)
  have h5 : ¬goTitle k = "Instance" := fun hh => hk (by rw [hh]; decide)
  simp only [unmarshalEntries, h1, h2, h3, h4, h5, if_false]

theorem unmarshalEntries_cons_typeK (p : Problem) (v : Value) (rest : List (String × Value)) :
    unmarshalEntries p (("type", v) :: rest) = unmarshalEntries (p.withType (sprint v)) rest := by
  simp +decide only [unmarshalEntries, if_true, if_false]

theorem unmarshalEntries_cons_titleK (p : Problem) (v : Value) (rest : List (String × Value)) :
    unmarshalEntries p (("title", v) :: rest) = unmarshalEntries (p.withTitle (sprint v)) rest := by
  simp +decide only [unmarshalEntries, if_true, if_false]

theorem unmarshalEntries_cons_statusK (p : Problem) (v : Value) (rest : List (String × Value)) :
    unmarshalEntries p (("status", v) :: rest) =
      match goAtoi (sprint v) with
      | .error e => .error (FromError e)
      | .ok n => unmarshalEntries (p.withStatus n) rest := by
  simp +decide only [unmarshalEntries, if_true, if_false]

theorem unmarshalEntries_cons_detailK (p : Problem) (v : Value) (rest : List (String × Value)) :
    unmarshalEntries p (("detail", v) :: rest) =
      unmarshalEntries (p.withDetail (sprint v)) rest := by
  simp +decide only [unmarshalEntries, if_true, if_false]

theorem unmarshalEntries_cons_instanceK (p : Problem) (v : Value) (rest : List (String × Value)) :
    unmarshalEntries p (("instance", v) :: rest) =
      unmarshalEntries (p.withInst (sprint v)) rest := by
  simp +decide only [unmarshalEntries, if_true, if_false]

/-- Unfolding of `marshal` at `json`: receiver state and output mapping. -/
theorem marshal_json_eq (ty ti de i : String) (stN : Int) (attrs : List (String × Value))
    (e : Option GoErr) :
    marshal (.mk ty ti stN de i attrs e) "json" =
      (let ty1 := if ty = "" then "about:blank" else ty
       let ti1 := if ti.length = 0 then statusText stN else ti
       let out0 := fieldsOut (.mk ty1 ti1 stN de i attrs e) "json"
       let out1 :=
         match e with
         | none => out0
         | some er =>
           if ty1 ≠ "about:blank" then
             insertA
               (match er with
                | .probErr q =>
                  (match (marshal q "json").2 with
                   | .ok j => insertA out0 "error" (.vobj j)
                   | .error _ => out0)
                | _ => out0) "error" (.vstr er.message)
           else out0
       (.mk ty1 ti1 stN de i attrs e,
        .ok (attrs.foldl (fun m kv => insertA m (goToLower kv.1) kv.2) out1))) := by
  rw [marshal.eq_def]
  simp only [Problem.withTitle, Problem.getTitle, Problem.title, Problem.status, if_pos rfl,
    if_true, if_false]

theorem marshal_fst (ty ti de i : String) (stN : Int) (attrs : List (String × Value))
    (e : Option GoErr) (r : String) :
    (marshal (.mk ty ti stN de i attrs e) r).1 =
      .mk (if ty = "" then "about:blank" else ty)
        (if ti.length = 0 then statusText stN else ti) stN de i attrs e := by
  rw [marshal.eq_def]
  simp only [Problem.withTitle, Problem.getTitle, Problem.title, Problem.status]
  split_ifs <;> rfl

theorem marshal_json_noCause (ty ti de i : String) (stN : Int)
    (attrs : List (String × Value)) :
    marshal (.mk ty ti stN de i attrs none) "json" =
      (.mk (if ty = "" then "about:blank" else ty)
         (if ti.length = 0 then statusText stN else ti) stN de i attrs none,
       .ok (attrs.foldl (fun m kv => insertA m (goToLower kv.1) kv.2)
         (fieldsOut (.mk (if ty = "" then "about:blank" else ty)
            (if ti.length = 0 then statusText stN else ti) stN de i attrs none) "json"))) := by
  rw [marshal_json_eq]

theorem withAttributes_self (p : Problem) : p.withAttributes p.attributes = p := by
  cases p; rfl

theorem withAttributes_withAttributes (p : Problem) (a b : List (String × Value)) :
    (p.withAttributes a).withAttributes b = p.withAttributes b := by
  cases p; rfl

theorem unmarshalEntries_attrs (l : List (String × Value)) (p : Problem)
    (h : ∀ kv ∈ l, goTitle kv.1 ∉ fixedFieldTitles)
    (hnodup : (l.map Prod.fst).Nodup)
    (hdisj : ∀ kv ∈ l, kv.1 ∉ keysA p.attributes) :
    unmarshalEntries p l = .ok (p.withAttributes (p.attributes ++ l)) := by
  induction l generalizing p with
  | nil =>
    rw [unmarshalEntries, List.append_nil, withAttributes_self]
  | cons kv rest ih =>
    obtain ⟨k, v⟩ := kv
    rw [unmarshalEntries_cons_other _ _ _ _ (h _ (List.mem_cons_self _ _))]
    rw [insertA_of_not_mem _ _ _ (hdisj _ (List.mem_cons_self _ _))]
    rw [ih (p.withAttributes (p.attributes ++ [(k, v)]))
      (fun kv' hkv' => h kv' (List.mem_cons_of_mem _ hkv'))
      (by simpa using hnodup.of_cons) ?_]
    · rw [withAttributes_withAttributes, attributes_withAttributes, List.append_assoc]
      rfl
    · intro kv' hkv'
      rw [attributes_withAttributes, keysA_append]
      intro hmem
      rcases List.mem_append.mp hmem with hmem | hmem
      · exact hdisj kv' (List.mem_cons_of_mem _ hkv') hmem
      · rw [List.map_cons, List.nodup_cons] at hnodup
        have hm : kv'.1 ∈ List.map Prod.fst rest := List.mem_map_of_mem Prod.fst hkv'
        simp only [keysA, List.map_cons, List.map_nil, List.mem_singleton] at hmem
        rw [← hmem] at hnodup
        exact hnodup.1 hm

theorem err_withTypeL (p : Problem) (s : String) : (p.withType s).err = p.err := by
  cases p; rfl

theorem err_withTitleL (p : Problem) (s : String) : (p.withTitle s).err = p.err := by
  cases p; rfl

theorem err_withStatusL (p : Problem) (n : Int) : (p.withStatus n).err = p.err := by
  cases p; rfl

theorem err_withDetailL (p : Problem) (s : String) : (p.withDetail s).err = p.err := by
  cases p; rfl

theorem err_withInstL (p : Problem) (s : String) : (p.withInst s).err = p.err := by
  cases p; rfl

theorem err_withAttributesL (p : Problem) (a : List (String × Value)) :
    (p.withAttributes a).err = p.err := by
  cases p; rfl

/-- `Unmarshal` never assigns the `err` field: the cause is not round-tripped. -/
theorem err_unmarshalEntries (l : List (String × Value)) (p q : Problem)
    (h : unmarshalEntries p l = .ok q) : q.err = p.err := by
  induction l generalizing p with
  | nil =>
    rw [unmarshalEntries] at h
    injection h with h'
    subst h'
    rfl
  | cons kv rest ih =>
    obtain ⟨k, v⟩ := kv
    simp only [unmarshalEntries] at h
    split_ifs at h
    · rw [ih _ h, err_withTypeL]
    · rw [ih _ h, err_withTitleL]
    · rcases hm : goAtoi (sprint v) with e | n
      · rw [hm] at h
        exact Except.noConfusion h
      · rw [hm] at h
        rw [ih _ h, err_withStatusL]
    · rw [ih _ h, err_withDetailL]
    · rw [ih _ h, err_withInstL]
    · rw [ih _ h, err_withAttributesL]

theorem sprint_vstr (s : String) : sprint (.vstr s) = s := rfl

theorem sprint_vint (n : Int) : sprint (.vint n) = intRepr n := rfl

theorem containsA_iff_mem_keysA (m : List (String × Value)) (k : String) :
    containsA m k = true ↔ k ∈ keysA m := by
  induction m with
  | nil => simp [containsA, lookupA, keysA]
  | cons kv rest ih =>
    obtain ⟨k0, v0⟩ := kv
    by_cases h : k0 = k
    · subst h
      simp [containsA, lookupA, keysA]
    · simp only [containsA, lookupA, if_neg h, keysA, List.map_cons, List.mem_cons]
      rw [← keysA, ← containsA, ih]
      constructor
      · exact Or.inr
      · rintro (rfl | hm)
        · exact absurd rfl h
        · exact hm

theorem containsA_mergeAttrs_of_mem (attrs : List (String × Value))
    (out : List (String × Value)) (kv : String × Value) (hkv : kv ∈ attrs) :
    containsA (attrs.foldl (fun m kv => insertA m (goToLower kv.1) kv.2) out)
      (goToLower kv.1) = true := by
  induction attrs generalizing out with
  | nil => cases hkv
  | cons kv0 rest ih =>
    rcases List.mem_cons.mp hkv with rfl | hkv'
    · rw [List.foldl_cons]
      exact containsA_mergeAttrs_mono _ _ _ (containsA_insertA_self _ _ _)
    · rw [List.foldl_cons]
      exact ih _ hkv'

/-- Master description of a `Marshal` call at format json: the mutated
receiver, and the output mapping characterized through its lookups. -/
theorem marshal_json_ok (ty ti de i : String) (stN : Int) (attrs : List (String × Value))
    (e : Option GoErr) :
    ∃ out1,
      marshal (.mk ty ti stN de i attrs e) "json" =
        (.mk (if ty = "" then "about:blank" else ty)
           (if ti.length = 0 then statusText stN else ti) stN de i attrs e,
         .ok (attrs.foldl (fun m kv => insertA m (goToLower kv.1) kv.2) out1)) ∧
      (∀ key, key ≠ "error" →
        lookupA out1 key =
          lookupA (fieldsOut (.mk (if ty = "" then "about:blank" else ty)
            (if ti.length = 0 then statusText stN else ti) stN de i attrs e) "json") key) ∧
      ((e = none ∨ (if ty = "" then "about:blank" else ty) = "about:blank") →
        out1 = fieldsOut (.mk (if ty = "" then "about:blank" else ty)
          (if ti.length = 0 then statusText stN else ti) stN de i attrs e) "json") ∧
      (∀ er, e = some er → (if ty = "" then "about:blank" else ty) ≠ "about:blank" →
        lookupA out1 "error" = some (.vstr er.message)) ∧
      (∀ k ∈ keysA out1,
        k ∈ keysA (fieldsOut (.mk (if ty = "" then "about:blank" else ty)
          (if ti.length = 0 then statusText stN else ti) stN de i attrs e) "json") ∨
        k = "error") := by
  rcases e with _ | er
  · exact ⟨_, marshal_json_noCause ty ti de i stN attrs, fun key _ => rfl, fun _ => rfl,
      fun er he _ => Option.noConfusion he, fun k hk => Or.inl hk⟩
  · by_cases hty : (if ty = "" then "about:blank" else ty) = "about:blank"
    · refine ⟨fieldsOut (.mk (if ty = "" then "about:blank" else ty)
          (if ti.length = 0 then statusText stN else ti) stN de i attrs (some er)) "json",
        ?_, fun key _ => rfl, fun _ => rfl, fun er' he hc => absurd hty hc,
        fun k hk => Or.inl hk⟩
      rw [marshal_json_eq]
      simp only [if_neg (not_not_intro hty)]
    · refine ⟨insertA
        (match er with
         | .probErr q =>
           (match (marshal q "json").2 with
            | .ok j => insertA (fieldsOut (.mk (if ty = "" then "about:blank" else ty)
                (if ti.length = 0 then statusText stN else ti) stN de i attrs (some er)) "json")
                "error" (.vobj j)
            | .error _ => fieldsOut (.mk (if ty = "" then "about:blank" else ty)
                (if ti.length = 0 then statusText stN else ti) stN de i attrs (some er)) "json")
         | _ => fieldsOut (.mk (if ty = "" then "about:blank" else ty)
             (if ti.length = 0 then statusText stN else ti) stN de i attrs (some er)) "json")
        "error" (.vstr er.message), ?_, ?_, ?_, ?_, ?_⟩
      · rw [marshal_json_eq]
        simp only [if_pos hty]
      · intro key hkey
        rw [lookupA_insertA_ne _ _ _ _ (fun hx => hkey hx.symm)]
        rcases er with s | q | pre
        · rfl
        · rcases hm : (marshal q "json").2 with er' | j
          · simp only [hm]
          · simp only [hm]
            exact lookupA_insertA_ne _ _ _ _ (fun hx => hkey hx.symm)
        · rfl
      · rintro (h | h)
        · exact Option.noConfusion h
        · exact absurd h hty
      · intro er' he _
        injection he with he'
        subst he'
        exact lookupA_insertA_self _ _ _
      · intro k hk
        rcases keysA_insertA_subset _ _ _ _ hk with rfl | hk'
        · exact Or.inr rfl
        · rcases er with s | q | pre
          · exact Or.inl hk'
          · rcases hm : (marshal q "json").2 with er' | j
            · simp only [hm] at hk'
              exact Or.inl hk'
            · simp only [hm] at hk'
              rcases keysA_insertA_subset _ _ _ _ hk' with rfl | hk''
              · exact Or.inr rfl
              · exact Or.inl hk''
          · exact Or.inl hk'

theorem defaultedType_ne_empty (ty : String) :
    (if ty = "" then "about:blank" else ty) ≠ "" := by
  split_ifs with h
  · decide
  · exact h

theorem ptype_withType (p : Problem) (t : String) : (p.withType t).ptype = t := by
  cases p; rfl

theorem attributes_withStatus (p : Problem) (n : Int) :
    (p.withStatus n).attributes = p.attributes := by
  cases p; rfl

theorem fieldsOut_facts (ty1 ti1 de i : String) (stN : Int) (attrs : List (String × Value))
    (e : Option GoErr) (hty : ty1 ≠ "") :
    lookupA (fieldsOut (.mk ty1 ti1 stN de i attrs e) "json") "type" = some (.vstr ty1) ∧
    lookupA (fieldsOut (.mk ty1 ti1 stN de i attrs e) "json") "title" = some (.vstr ti1) ∧
    lookupA (fieldsOut (.mk ty1 ti1 stN de i attrs e) "json") "status" = some (.vint stN) ∧
    lookupA (fieldsOut (.mk ty1 ti1 stN de i attrs e) "json") "detail" = some (.vstr de) ∧
    lookupA (fieldsOut (.mk ty1 ti1 stN de i attrs e) "json") "instance" =
      (if i = "" then none else some (.vstr i)) ∧
    lookupA (fieldsOut (.mk ty1 ti1 stN de i attrs e) "json") "error" = none ∧
    keysA (fieldsOut (.mk ty1 ti1 stN de i attrs e) "json") =
      ["type", "title", "status", "detail"] ++ (if i = "" then [] else ["instance"]) := by
  rw [fieldsOut_json ty1 ti1 de i stN attrs e hty]
  by_cases hi : i = "" <;> simp +decide [hi, lookupA, keysA]

/-- C7: for every Problem whose `Type` is empty, `Marshal` (called with any
format) sets the `Type` field to `about:blank` on the Problem itself, and the
mutation is observable on the returned receiver state. -/
theorem C7_marshal_defaults_type (p : Problem) (r : String) (h : p.ptype = "") :
    ((marshal p r).1).ptype = "about:blank" := by
  obtain ⟨ty, ti, stN, de, i, attrs, e⟩ := p
  simp only [Problem.ptype] at h
  rw [marshal_fst]
  simp [Problem.ptype, h]

theorem C7_witness : (NewProblem 500 "boom").ptype = "" ∧
    ((marshal (NewProblem 500 "boom") "json").1).ptype = "about:blank" :=
  ⟨rfl, C7_marshal_defaults_type (NewProblem 500 "boom") "json" rfl⟩

/-- C10: `Marshal` mutates `Title` as well: for every Problem with an empty
title, after `Marshal` returns (in any format) the receiver's `Title` holds
the standard reason phrase for its status (empty for an unassigned code). -/
theorem C10_marshal_mutates_title (p : Problem) (r : String) (h : p.title = "") :
    ((marshal p r).1).title = statusText p.status := by
  obtain ⟨ty, ti, stN, de, i, attrs, e⟩ := p
  simp only [Problem.title] at h
  subst h
  rw [marshal_fst]
  simp [Problem.title, Problem.status]

theorem C10_witness : (NewProblem 555 "Test Error").title = "" ∧
    ((marshal (NewProblem 555 "Test Error") "xml").1).title = "" ∧ statusText 555 = "" := by
  refine ⟨rfl, ?_, rfl⟩
  rw [C10_marshal_mutates_title (NewProblem 555 "Test Error") "xml" rfl]
  rfl

/-- C8 amended: for every Problem with an empty title and no extension
attribute whose key lower-cases to `title`, json marshaling succeeds and
substitutes the standard reason phrase of the status as the output `title`
(the receiver's title is updated likewise); for a status with no phrase the
substituted title is the empty string and no error is raised. -/
theorem C8_empty_title_reason_phrase (p : Problem) (h : p.title = "")
    (hattr : ∀ kv ∈ p.attributes, goToLower kv.1 ≠ "title") :
    ∃ p' out, marshal p "json" = (p', .ok out) ∧
      lookupA out "title" = some (.vstr (statusText p.status)) ∧
      p'.title = statusText p.status := by
  obtain ⟨ty, ti, stN, de, i, attrs, e⟩ := p
  simp only [Problem.title] at h
  subst h
  simp only [Problem.attributes] at hattr
  simp only [Problem.status]
  obtain ⟨out1, heq, hlk, _, _, _⟩ := marshal_json_ok ty "" de i stN attrs e
  refine ⟨_, _, heq, ?_, ?_⟩
  · rw [lookupA_mergeAttrs_of_ne _ _ _ hattr, hlk "title" (by decide)]
    have hfacts := fieldsOut_facts (if ty = "" then "about:blank" else ty)
      (if ("" : String).length = 0 then statusText stN else "") de i stN attrs e
      (defaultedType_ne_empty ty)
    rw [hfacts.2.1]
    norm_num
  · simp [Problem.title]

theorem C8_witness :
    ∃ p' out, marshal (NewProblem 555 "Test Error") "json" = (p', .ok out) ∧
      lookupA out "title" = some (.vstr "") := by
  obtain ⟨p', out, heq, hlk, _⟩ :=
    C8_empty_title_reason_phrase (NewProblem 555 "Test Error") rfl (by simp [NewProblem, Problem.attributes])
  refine ⟨p', out, heq, ?_⟩
  rw [hlk]
  rfl

/-- C2: while `Type` is empty or `about:blank`, `Set` with any key outside
the five reserved names fails with a fresh internal-error Problem whose
detail explains the guard; once `Type` holds any other non-empty string the
same key is accepted and stored verbatim in the attributes map. -/
theorem C2_extension_guard (p : Problem) (k : String) (v : Value)
    (hty : p.ptype = "" ∨ p.ptype = "about:blank")
    (hk : goToLower k ∉ fixedFieldNames) :
    (p.set k v = .error (setGuardFailure p) ∧
     (setGuardFailure p).status = 500 ∧
     (setGuardFailure p).detail = "Cannot set extended attributes unless Type is set") ∧
    (∀ t, t ≠ "" → t ≠ "about:blank" →
      (p.withType t).set k v = .ok ((p.withType t).withAttributes (insertA p.attributes k v)) ∧
      lookupA (insertA p.attributes k v) k = some v) := by
  have hk' := goTitle_not_fixed_of_lower k hk
  refine ⟨⟨?_, rfl, rfl⟩, ?_⟩
  · rw [set_of_goTitle_other p k v hk', if_pos hty]
  · intro t ht1 ht2
    rw [set_of_goTitle_other _ k v hk', ptype_withType, if_neg (by tauto),
      attributes_withType]
    exact ⟨rfl, lookupA_insertA_self _ _ _⟩

theorem C2_witness :
    (NewProblem 500 "x").set "TraceID" (.vstr "1") =
      .error (setGuardFailure (NewProblem 500 "x")) ∧
    (setGuardFailure (NewProblem 500 "x")).detail =
      "Cannot set extended attributes unless Type is set" ∧
    ((NewProblem 500 "x").withType "uri:example:extended").set "TraceID" (.vstr "1") =
      .ok (((NewProblem 500 "x").withType "uri:example:extended").withAttributes
        [("TraceID", .vstr "1")]) ∧
    lookupA [("TraceID", .vstr "1")] "TraceID" = some (.vstr "1") := by
  have h := C2_extension_guard (NewProblem 500 "x") "TraceID" (.vstr "1")
    (Or.inl rfl) (by decide)
  exact ⟨h.1.1, h.1.2.2, (h.2 "uri:example:extended" (by decide) (by decide)).1,
    (h.2 "uri:example:extended" (by decide) (by decide)).2⟩

/-- C3 counterexample: `Set` with the key `STATUS`, which case-insensitively
equals `status`, does not fail once `Type` is non-default: `strings.Title`
leaves `STATUS` unchanged, so the key is routed to the attributes map and
`Set` succeeds. -/
theorem C3_counterexample :
    goToLower "STATUS" = "status" ∧
    ((NewProblem 500 "x").withType "urn:x").set "STATUS" (.vstr "9") =
      .ok (((NewProblem 500 "x").withType "urn:x").withAttributes
        [("STATUS", .vstr "9")]) :=
  ⟨by decide, rfl⟩

/-- C3 amended: `Set` always fails exactly for the keys `status` and
`Status` (first letter in either case, remainder lower-case), returning
`New(500, "Cannot set status with Set")`; and no successful `Set` call ever
changes the `Status` field. -/
theorem C3_set_status_immutable (p : Problem) (v : Value) :
    p.set "status" v = .error (NewProblem 500 "Cannot set status with Set") ∧
    p.set "Status" v = .error (NewProblem 500 "Cannot set status with Set") ∧
    (∀ k w q, p.set k w = .ok q → q.status = p.status) :=
  ⟨set_of_goTitle_Status p "status" v (by decide),
   set_of_goTitle_Status p "Status" v (by decide),
   fun k w q h => set_status_preserved p k w q h⟩

theorem C3_witness :
    (NewProblem 404 "nf").set "status" (.vstr "7") =
      .error (NewProblem 500 "Cannot set status with Set") ∧
    (NewProblem 404 "nf").set "Title" (.vstr "T") = .ok ((NewProblem 404 "nf").withTitle "T") ∧
    ((NewProblem 404 "nf").withTitle "T").status = (NewProblem 404 "nf").status :=
  ⟨(C3_set_status_immutable (NewProblem 404 "nf") (.vstr "7")).1, rfl,
   (C3_set_status_immutable (NewProblem 404 "nf") (.vstr "7")).2.2 "Title" (.vstr "T")
     ((NewProblem 404 "nf").withTitle "T") rfl⟩

theorem set_of_goTitle_Title (p : Problem) (k : String) (v : Value)
    (hk : goTitle k = "Title") : p.set k v = .ok (p.withTitle (sprint v)) := by
  simp +decide only [Problem.set, hk, if_true, if_false]

theorem set_of_goTitle_Type (p : Problem) (k : String) (v : Value)
    (hk : goTitle k = "Type") : p.set k v = .ok (p.withType (sprint v)) := by
  simp +decide only [Problem.set, hk, if_true, if_false]

theorem set_of_goTitle_Detail (p : Problem) (k : String) (v : Value)
    (hk : goTitle k = "Detail") : p.set k v = .ok (p.withDetail (sprint v)) := by
  simp +decide only [Problem.set, hk, if_true, if_false]

theorem set_of_goTitle_Instance (p : Problem) (k : String) (v : Value)
    (hk : goTitle k = "Instance") : p.set k v = .ok (p.withInst (sprint v)) := by
  simp +decide only [Problem.set, hk, if_true, if_false]

theorem unmarshalEntries_goTitle_Type (p : Problem) (k : String) (v : Value)
    (rest : List (String × Value)) (hk : goTitle k = "Type") :
    unmarshalEntries p ((k, v) :: rest) = unmarshalEntries (p.withType (sprint v)) rest := by
  simp +decide only [unmarshalEntries, hk, if_true, if_false]

theorem unmarshalEntries_goTitle_Title (p : Problem) (k : String) (v : Value)
    (rest : List (String × Value)) (hk : goTitle k = "Title") :
    unmarshalEntries p ((k, v) :: rest) = unmarshalEntries (p.withTitle (sprint v)) rest := by
  simp +decide only [unmarshalEntries, hk, if_true, if_false]

theorem unmarshalEntries_goTitle_Status (p : Problem) (k : String) (v : Value)
    (rest : List (String × Value)) (hk : goTitle k = "Status") :
    unmarshalEntries p ((k, v) :: rest) =
      match goAtoi (sprint v) with
      | .error e => .error (FromError e)
      | .ok n => unmarshalEntries (p.withStatus n) rest := by
  simp +decide only [unmarshalEntries, hk, if_true, if_false]

theorem unmarshalEntries_goTitle_Detail (p : Problem) (k : String) (v : Value)
    (rest : List (String × Value)) (hk : goTitle k = "Detail") :
    unmarshalEntries p ((k, v) :: rest) = unmarshalEntries (p.withDetail (sprint v)) rest := by
  simp +decide only [unmarshalEntries, hk, if_true, if_false]

theorem unmarshalEntries_goTitle_Instance (p : Problem) (k : String) (v : Value)
    (rest : List (String × Value)) (hk : goTitle k = "Instance") :
    unmarshalEntries p ((k, v) :: rest) = unmarshalEntries (p.withInst (sprint v)) rest := by
  simp +decide only [unmarshalEntries, hk, if_true, if_false]

/-- C4 counterexample: the key `TYPE` matches the reserved name `type`
case-insensitively, yet both `Unmarshal` and `Set` route it to the
attributes map (`strings.Title` leaves all-caps keys unchanged, so the
dispatch misses): the decoded `TYPE` value lands in `Attributes` and the
`Type` field stays empty. -/
theorem C4_counterexample :
    goToLower "TYPE" = "type" ∧
    unmarshal zeroProblem "json" [("TYPE", .vstr "urn:x")] =
      .ok (zeroProblem.withAttributes [("TYPE", .vstr "urn:x")]) ∧
    (zeroProblem.withAttributes [("TYPE", .vstr "urn:x")]).ptype = "" :=
  ⟨by decide, rfl, rfl⟩

/-- C4 amended: in both `Set` and `Unmarshal` a key is dispatched to a
fixed field iff `strings.Title(key)` equals the capitalized field name —
the first letter is matched in either case, the remainder must be exactly
lower-case; every other key, including other case variants of the reserved
names, is routed to the attributes map. -/
theorem C4_fixed_field_dispatch (p : Problem) (k : String) (v : Value) :
    (goTitle k ∉ fixedFieldTitles →
      unmarshalEntries p [(k, v)] = .ok (p.withAttributes (insertA p.attributes k v)) ∧
      p.set k v =
        (if p.ptype = "" ∨ p.ptype = "about:blank" then .error (setGuardFailure p)
         else .ok (p.withAttributes (insertA p.attributes k v)))) ∧
    (goTitle k ∈ fixedFieldTitles →
      (∀ q, unmarshalEntries p [(k, v)] = .ok q → q.attributes = p.attributes) ∧
      (∀ q, p.set k v = .ok q → q.attributes = p.attributes)) := by
  constructor
  · intro hk
    refine ⟨?_, set_of_goTitle_other p k v hk⟩
    rw [unmarshalEntries_cons_other p k v [] hk, unmarshalEntries]
  · intro hk
    rcases (by simpa [fixedFieldTitles] using hk : goTitle k = "Title" ∨ goTitle k = "Status" ∨
        goTitle k = "Type" ∨ goTitle k = "Detail" ∨ goTitle k = "Instance") with
      h' | h' | h' | h' | h'
    · refine ⟨fun q hq => ?_, fun q hq => ?_⟩
      · rw [unmarshalEntries_goTitle_Title p k v [] h', unmarshalEntries] at hq
        injection hq with hq'
        subst hq'
        exact attributes_withTitle p _
      · rw [set_of_goTitle_Title p k v h'] at hq
        injection hq with hq'
        subst hq'
        exact attributes_withTitle p _
    · refine ⟨fun q hq => ?_, fun q hq => ?_⟩
      · rw [unmarshalEntries_goTitle_Status p k v [] h'] at hq
        rcases hm : goAtoi (sprint v) with e | n
        · rw [hm] at hq
          exact Except.noConfusion hq
        · rw [hm] at hq
          injection hq with hq'
          subst hq'
          exact attributes_withStatus p _
      · rw [set_of_goTitle_Status p k v h'] at hq
        exact Except.noConfusion hq
    · refine ⟨fun q hq => ?_, fun q hq => ?_⟩
      · rw [unmarshalEntries_goTitle_Type p k v [] h', unmarshalEntries] at hq
        injection hq with hq'
        subst hq'
        exact attributes_withType p _
      · rw [set_of_goTitle_Type p k v h'] at hq
        injection hq with hq'
        subst hq'
        exact attributes_withType p _
    · refine ⟨fun q hq => ?_, fun q hq => ?_⟩
      · rw [unmarshalEntries_goTitle_Detail p k v [] h', unmarshalEntries] at hq
        injection hq with hq'
        subst hq'
        exact attributes_withDetail p _
      · rw [set_of_goTitle_Detail p k v h'] at hq
        injection hq with hq'
        subst hq'
        exact attributes_withDetail p _
    · refine ⟨fun q hq => ?_, fun q hq => ?_⟩
      · rw [unmarshalEntries_goTitle_Instance p k v [] h', unmarshalEntries] at hq
        injection hq with hq'
        subst hq'
        exact attributes_withInst p _
      · rw [set_of_goTitle_Instance p k v h'] at hq
        injection hq with hq'
        subst hq'
        exact attributes_withInst p _

theorem C4_witness :
    unmarshalEntries (NewProblem 1 "d") [("traceid", .vstr "7")] =
      .ok ((NewProblem 1 "d").withAttributes [("traceid", .vstr "7")]) ∧
    (∀ q, unmarshalEntries (NewProblem 1 "d") [("type", .vstr "u")] = .ok q →
      q.attributes = (NewProblem 1 "d").attributes) := by
  constructor
  · exact ((C4_fixed_field_dispatch (NewProblem 1 "d") "traceid" (.vstr "7")).1
      (by decide)).1
  · exact fun q hq => ((C4_fixed_field_dispatch (NewProblem 1 "d") "type" (.vstr "u")).2
      (by decide)).1 q hq

/-- C9 counterexample: `FromError` (hence `Wrap` on a plain error) does not
store `err` itself as the cause: it stores `fmt.Errorf("Problem: %w", err)`,
a wrapper around `err`. -/
theorem C9_counterexample :
    (Wrap (.plain "x")).err = some (.wrapErr "Problem: " (.plain "x")) ∧
    (Wrap (.plain "x")).err ≠ some (.plain "x") := by
  refine ⟨rfl, fun h => ?_⟩
  rw [show (Wrap (.plain "x")).err = some (.wrapErr "Problem: " (.plain "x")) from rfl] at h
  injection h with h2
  exact GoErr.noConfusion h2

/-- C9 amended: `Wrap` returns a `*Problem` argument unchanged, so
`Wrap(Wrap(err))` is the identical Problem; on a non-Problem error it
behaves as `FromError`: status 500, detail set to the error's message, and
the error stored as cause wrapped once with the prefix `Problem: `. -/
theorem C9_wrap_idempotent (e : GoErr) :
    (∀ q : Problem, Wrap (.probErr q) = q) ∧
    Wrap (.probErr (Wrap e)) = Wrap e ∧
    ((∀ q, e ≠ .probErr q) →
      Wrap e = FromError e ∧ (Wrap e).status = 500 ∧
      (Wrap e).detail = e.message ∧
      (Wrap e).err = some (.wrapErr "Problem: " e)) := by
  refine ⟨fun q => rfl, rfl, fun hne => ?_⟩
  have hw : Wrap e = FromError e := by
    cases e with
    | plain s => rfl
    | probErr q => exact absurd rfl (hne q)
    | wrapErr pre e' => rfl
  rw [hw]
  exact ⟨rfl, rfl, rfl, rfl⟩

theorem C9_witness :
    Wrap (.probErr (NewProblem 404 "nf")) = NewProblem 404 "nf" ∧
    (Wrap (.plain "boom")).status = 500 ∧ (Wrap (.plain "boom")).detail = "boom" ∧
    Wrap (.probErr (Wrap (.plain "boom"))) = Wrap (.plain "boom") := by
  have h := C9_wrap_idempotent (.plain "boom")
  exact ⟨h.1 (NewProblem 404 "nf"),
    (h.2.2 (fun q hq => GoErr.noConfusion hq)).2.1,
    (h.2.2 (fun q hq => GoErr.noConfusion hq)).2.2.1, h.2.1⟩

/-- C6 counterexample: a Problem with a non-nil cause whose `Type` is the
empty string (hence not the literal `about:blank`): marshal first rewrites
the empty type to `about:blank` and therefore adds no `error` field, against
the claim's premise `type ≠ about:blank`. -/
theorem C6_counterexample :
    (Problem.mk "" "" 500 "boom" "" [] (some (.plain "x"))).ptype ≠ "about:blank" ∧
    (Problem.mk "" "" 500 "boom" "" [] (some (.plain "x"))).err = some (.plain "x") ∧
    (marshal (Problem.mk "" "" 500 "boom" "" [] (some (.plain "x"))) "json").2 =
      .ok [("type", .vstr "about:blank"), ("title", .vstr "Internal Server Error"),
           ("status", .vint 500), ("detail", .vstr "boom")] ∧
    lookupA [("type", .vstr "about:blank"), ("title", .vstr "Internal Server Error"),
        ("status", .vint 500), ("detail", .vstr "boom")] "error" = none :=
  ⟨by decide, rfl, rfl, rfl⟩

/-- C6 amended: for every Problem with a non-nil cause whose type is neither
empty nor `about:blank`, the json output carries `error` = the cause's
message string — even when the cause is itself a Problem whose nested
serialization succeeds, the message string wins; with a nil cause, or a type
that is empty or `about:blank`, no `error` field is added (assuming no
extension attribute lower-cases to `error`). -/
theorem C6_error_field (p : Problem)
    (hattr : ∀ kv ∈ p.attributes, goToLower kv.1 ≠ "error") :
    ∃ p' out, marshal p "json" = (p', .ok out) ∧
      (∀ e, p.err = some e → p.ptype ≠ "" → p.ptype ≠ "about:blank" →
        lookupA out "error" = some (.vstr e.message)) ∧
      ((p.err = none ∨ p.ptype = "" ∨ p.ptype = "about:blank") →
        lookupA out "error" = none) := by
  obtain ⟨ty, ti, stN, de, i, attrs, e⟩ := p
  simp only [Problem.err, Problem.ptype, Problem.attributes] at hattr ⊢
  obtain ⟨out1, heq, hlk, hnone, herr, _⟩ := marshal_json_ok ty ti de i stN attrs e
  refine ⟨_, _, heq, ?_, ?_⟩
  · intro er he hty1 hty2
    rw [lookupA_mergeAttrs_of_ne _ _ _ hattr]
    exact herr er he (by rw [if_neg hty1]; exact hty2)
  · intro hcase
    rw [lookupA_mergeAttrs_of_ne _ _ _ hattr]
    have hout1 : out1 = fieldsOut (.mk (if ty = "" then "about:blank" else ty)
        (if ti.length = 0 then statusText stN else ti) stN de i attrs e) "json" := by
      apply hnone
      rcases hcase with h | h | h
      · exact Or.inl h
      · exact Or.inr (by rw [if_pos h])
      · refine Or.inr ?_
        split_ifs with h0
        · rfl
        · exact h
    rw [hout1]
    exact (fieldsOut_facts (if ty = "" then "about:blank" else ty)
      (if ti.length = 0 then statusText stN else ti) de i stN attrs e
      (defaultedType_ne_empty ty)).2.2.2.2.2.1

theorem C6_witness :
    (marshal (NewProblem 404 "inner") "json").2 =
      .ok [("type", .vstr "about:blank"), ("title", .vstr "Not Found"),
           ("status", .vint 404), ("detail", .vstr "inner")] ∧
    (∃ p' out, marshal (Problem.mk "urn:x" "t" 500 "d" "" []
        (some (.probErr (NewProblem 404 "inner")))) "json" = (p', .ok out) ∧
      lookupA out "error" = some (.vstr "404: inner")) ∧
    (∃ p' out, marshal (Problem.mk "" "" 500 "boom" "" [] (some (.plain "x"))) "json" =
        (p', .ok out) ∧ lookupA out "error" = none) := by
  refine ⟨rfl, ?_, ?_⟩
  · obtain ⟨p', out, heq, herr, _⟩ :=
      C6_error_field (Problem.mk "urn:x" "t" 500 "d" "" []
        (some (.probErr (NewProblem 404 "inner"))))
        (fun kv hkv => absurd hkv (List.not_mem_nil kv))
    refine ⟨p', out, heq, ?_⟩
    rw [herr (.probErr (NewProblem 404 "inner")) rfl (by decide) (by decide)]
    rfl
  · obtain ⟨p', out, heq, _, hno⟩ :=
      C6_error_field (Problem.mk "" "" 500 "boom" "" [] (some (.plain "x")))
        (fun kv hkv => absurd hkv (List.not_mem_nil kv))
    exact ⟨p', out, heq, hno (Or.inr (Or.inl rfl))⟩

/-- C5 counterexample: with an empty `Instance` field but an extension
attribute named `instance`, the marshaled output does contain the key
`instance`, refuting "contains `instance` iff the instance field is
non-empty". -/
theorem C5_counterexample :
    (Problem.mk "urn:x" "t" 500 "d" "" [("instance", .vstr "/x")] none).inst = "" ∧
    (marshal (Problem.mk "urn:x" "t" 500 "d" "" [("instance", .vstr "/x")] none) "json").2 =
      .ok [("type", .vstr "urn:x"), ("title", .vstr "t"), ("status", .vint 500),
           ("detail", .vstr "d"), ("instance", .vstr "/x")] ∧
    containsA [("type", .vstr "urn:x"), ("title", .vstr "t"), ("status", .vint 500),
        ("detail", .vstr "d"), ("instance", .vstr "/x")] "instance" = true :=
  ⟨rfl, rfl, rfl⟩

/-- C5 amended: the json output mapping always contains `type`, `title`,
`status` and `detail`; it contains `instance` iff the instance field is
non-empty or some extension key lower-cases to `instance`; all output keys
are lower-case; and every attributes entry is merged last under its
lower-cased key, overwriting a same-named fixed field (extension wins) —
stated for attribute maps whose lower-cased keys are distinct, since the
winner among colliding extension keys is Go map iteration order. -/
theorem C5_output_mapping (p : Problem)
    (hnodup : (p.attributes.map (fun kv => goToLower kv.1)).Nodup) :
    ∃ p' out, marshal p "json" = (p', .ok out) ∧
      containsA out "type" = true ∧ containsA out "title" = true ∧
      containsA out "status" = true ∧ containsA out "detail" = true ∧
      (containsA out "instance" = true ↔
        (p.inst ≠ "" ∨ ∃ kv ∈ p.attributes, goToLower kv.1 = "instance")) ∧
      (∀ k ∈ keysA out, goToLower k = k) ∧
      (∀ kv ∈ p.attributes, lookupA out (goToLower kv.1) = some kv.2) := by
  obtain ⟨ty, ti, stN, de, i, attrs, e⟩ := p
  simp only [Problem.inst, Problem.attributes] at hnodup ⊢
  obtain ⟨out1, heq, hlk, hnone, herr, hkeys1⟩ := marshal_json_ok ty ti de i stN attrs e
  have hfacts := fieldsOut_facts (if ty = "" then "about:blank" else ty)
    (if ti.length = 0 then statusText stN else ti) de i stN attrs e
    (defaultedType_ne_empty ty)
  have hcont : ∀ key : String, key ≠ "error" →
      (lookupA (fieldsOut (.mk (if ty = "" then "about:blank" else ty)
        (if ti.length = 0 then statusText stN else ti) stN de i attrs e) "json") key).isSome →
      containsA (attrs.foldl (fun m kv => insertA m (goToLower kv.1) kv.2) out1) key = true := by
    intro key hkey hsome
    apply containsA_mergeAttrs_mono
    rw [containsA, hlk key hkey]
    exact hsome
  refine ⟨_, _, heq, ?_, ?_, ?_, ?_, ?_, ?_, ?_⟩
  · exact hcont "type" (by decide) (by rw [hfacts.1]; rfl)
  · exact hcont "title" (by decide) (by rw [hfacts.2.1]; rfl)
  · exact hcont "status" (by decide) (by rw [hfacts.2.2.1]; rfl)
  · exact hcont "detail" (by decide) (by rw [hfacts.2.2.2.1]; rfl)
  · constructor
    · intro hc
      rw [containsA_iff_mem_keysA] at hc
      rcases keysA_mergeAttrs _ _ _ hc with h1 | ⟨kv, hkv, hk⟩
      · rcases hkeys1 _ h1 with h2 | h2
        · rw [hfacts.2.2.2.2.2.2] at h2
          by_cases hi : i = ""
          · rw [hi] at h2
            simp at h2
          · exact Or.inl hi
        · exact absurd h2 (by decide)
      · exact Or.inr ⟨kv, hkv, hk.symm⟩
    · rintro (hi | ⟨kv, hkv, hk⟩)
      · apply hcont "instance" (by decide)
        rw [hfacts.2.2.2.2.1, if_neg hi]
        rfl
      · rw [← hk]
        exact containsA_mergeAttrs_of_mem attrs out1 kv hkv
  · intro k hk
    rcases keysA_mergeAttrs _ _ _ hk with h1 | ⟨kv, hkv, hk'⟩
    · rcases hkeys1 _ h1 with h2 | h2
      · rw [hfacts.2.2.2.2.2.2] at h2
        have h3 : k ∈ (["type", "title", "status", "detail", "instance"] : List String) := by
          rcases List.mem_append.mp h2 with h4 | h4
          · simp only [List.mem_cons, List.not_mem_nil, or_false] at h4 ⊢
            tauto
          · split_ifs at h4
            · cases h4
            · simp only [List.mem_cons, List.not_mem_nil, or_false] at h4 ⊢
              tauto
        rcases (by simpa using h3 : k = "type" ∨ k = "title" ∨ k = "status" ∨
            k = "detail" ∨ k = "instance") with rfl | rfl | rfl | rfl | rfl <;> decide
      · rw [h2]
        decide
    · rw [hk']
      exact goToLower_goToLower _
  · exact lookupA_mergeAttrs_self attrs out1 hnodup

theorem C5_witness :
    ∃ p' out,
      marshal (Problem.mk "urn:x" "Test" 500 "d" "/i" [("TraceID", .vstr "1")] none)
        "json" = (p', .ok out) ∧
      containsA out "type" = true ∧ containsA out "instance" = true ∧
      lookupA out "traceid" = some (.vstr "1") := by
  obtain ⟨p', out, heq, ht, _, _, _, hinst, _, hwins⟩ :=
    C5_output_mapping (Problem.mk "urn:x" "Test" 500 "d" "/i" [("TraceID", .vstr "1")] none)
      (by decide)
  refine ⟨p', out, heq, ht, ?_, ?_⟩
  · exact hinst.mpr (Or.inl (by decide))
  · have := hwins ("TraceID", .vstr "1") (List.mem_cons_self _ _)
    rw [show goToLower "TraceID" = "traceid" from by decide] at this
    exact this

theorem unmarshalEntries_cons_statusInt (p : Problem) (n : Int) (rest : List (String × Value)) :
    unmarshalEntries p (("status", .vint n) :: rest) =
      unmarshalEntries (p.withStatus n) rest := by
  rw [unmarshalEntries_cons_statusK, show sprint (Value.vint n) = intRepr n from rfl,
    goAtoi_intRepr]

theorem unmarshal_json (p : Problem) (data : List (String × Value)) :
    unmarshal p "json" data = unmarshalEntries (p.withAttributes []) data := by
  simp [unmarshal]

/-- C1 counterexample: marshaling lower-cases extension keys, so an
attribute stored under `TraceID` comes back under `traceid`: the
round-tripped Problem is not equal to the original on that extension
attribute even though no key collides with a fixed field. -/
theorem C1_counterexample :
    (Problem.mk "urn:x" "t" 500 "d" "" [("TraceID", .vstr "1")] none).err = none ∧
    goToLower "TraceID" ∉ fixedFieldNames ∧
    (marshal (Problem.mk "urn:x" "t" 500 "d" "" [("TraceID", .vstr "1")] none) "json").2 =
      .ok [("type", .vstr "urn:x"), ("title", .vstr "t"), ("status", .vint 500),
           ("detail", .vstr "d"), ("traceid", .vstr "1")] ∧
    unmarshal zeroProblem "json"
        [("type", .vstr "urn:x"), ("title", .vstr "t"), ("status", .vint 500),
         ("detail", .vstr "d"), ("traceid", .vstr "1")] =
      .ok (Problem.mk "urn:x" "t" 500 "d" "" [("traceid", .vstr "1")] none) ∧
    lookupA [("traceid", .vstr "1")] "TraceID" = none :=
  ⟨rfl, by decide, rfl, rfl, rfl⟩

/-- C1 amended: for a Problem with no cause, no (case-insensitive) key
collision between extension attributes and the five fixed fields, and all
extension keys already lower-case, unmarshaling the marshaled json mapping
into a zero Problem returns exactly the receiver state left by `Marshal`
(type and title normalized, all other fixed fields and every extension
attribute preserved by value); the cause is never round-tripped. -/
theorem C1_round_trip (p : Problem)
    (hcause : p.err = none)
    (hlow : ∀ kv ∈ p.attributes, goToLower kv.1 = kv.1)
    (hnodup : (p.attributes.map Prod.fst).Nodup)
    (hfix : ∀ kv ∈ p.attributes, kv.1 ∉ fixedFieldNames) :
    ∃ p' out, marshal p "json" = (p', .ok out) ∧
      unmarshal zeroProblem "json" out = .ok p' ∧
      p'.attributes = p.attributes ∧ p'.status = p.status ∧
      p'.detail = p.detail ∧ p'.inst = p.inst ∧ p'.err = none := by
  obtain ⟨ty, ti, stN, de, i, attrs, e⟩ := p
  simp only [Problem.err, Problem.attributes, Problem.status, Problem.detail,
    Problem.inst] at hcause hlow hnodup hfix ⊢
  subst hcause
  have hgo : ∀ kv ∈ attrs, goTitle kv.1 ∉ fixedFieldTitles := fun kv hkv =>
    goTitle_not_fixed_of_lower _ (by rw [hlow kv hkv]; exact hfix kv hkv)
  refine ⟨_, _, marshal_json_noCause ty ti de i stN attrs, ?_, rfl, rfl, rfl, rfl, rfl⟩
  rw [fieldsOut_json (if ty = "" then "about:blank" else ty)
    (if ti.length = 0 then statusText stN else ti) de i stN attrs none
    (defaultedType_ne_empty ty)]
  by_cases hi : i = ""
  · rw [if_pos hi]
    rw [mergeAttrs_append attrs _ hlow hnodup ?_]
    · rw [unmarshal_json, show zeroProblem.withAttributes [] = zeroProblem from rfl]
      simp only [List.cons_append, List.nil_append]
      rw [unmarshalEntries_cons_typeK, unmarshalEntries_cons_titleK,
        unmarshalEntries_cons_statusInt, unmarshalEntries_cons_detailK]
      rw [unmarshalEntries_attrs attrs _ hgo hnodup
        (fun kv _ h => absurd h (List.not_mem_nil _))]
      rw [hi]
      rfl
    · intro kv hkv h
      apply hfix kv hkv
      rcases (by simpa [keysA] using h : kv.1 = "type" ∨ kv.1 = "title" ∨
          kv.1 = "status" ∨ kv.1 = "detail") with h' | h' | h' | h' <;> rw [h'] <;> decide
  · rw [if_neg hi]
    rw [mergeAttrs_append attrs _ hlow hnodup ?_]
    · rw [unmarshal_json, show zeroProblem.withAttributes [] = zeroProblem from rfl]
      simp only [List.cons_append, List.nil_append]
      rw [unmarshalEntries_cons_typeK, unmarshalEntries_cons_titleK,
        unmarshalEntries_cons_statusInt, unmarshalEntries_cons_detailK,
        unmarshalEntries_cons_instanceK]
      rw [unmarshalEntries_attrs attrs _ hgo hnodup
        (fun kv _ h => absurd h (List.not_mem_nil _))]
      rfl
    · intro kv hkv h
      apply hfix kv hkv
      rcases (by simpa [keysA] using h : kv.1 = "type" ∨ kv.1 = "title" ∨
          kv.1 = "status" ∨ kv.1 = "detail" ∨ kv.1 = "instance") with
        h' | h' | h' | h' | h' <;> rw [h'] <;> decide

theorem C1_witness :
    ∃ p' out,
      marshal (Problem.mk "urn:x" "Test" 500 "d" "/i" [("traceid", .vstr "1")] none)
        "json" = (p', .ok out) ∧
      unmarshal zeroProblem "json" out = .ok p' ∧
      p'.attributes = [("traceid", .vstr "1")] := by
  obtain ⟨p', out, heq, hrt, hattrs, _⟩ :=
    C1_round_trip (Problem.mk "urn:x" "Test" 500 "d" "/i" [("traceid", .vstr "1")] none)
      rfl (by decide) (by decide) (by decide)
  exact ⟨p', out, heq, hrt, hattrs⟩

/-- C8 counterexample: an extension attribute whose key lower-cases to
`title` overwrites the substituted reason phrase in the marshaled output,
so the output title value is not the standard reason phrase. -/
theorem C8_counterexample :
    (Problem.mk "urn:x" "" 500 "d" "" [("tItle", .vstr "X")] none).title = "" ∧
    statusText 500 = "Internal Server Error" ∧
    (marshal (Problem.mk "urn:x" "" 500 "d" "" [("tItle", .vstr "X")] none) "json").2 =
      .ok [("type", .vstr "urn:x"), ("title", .vstr "X"), ("status", .vint 500),
           ("detail", .vstr "d")] ∧
    lookupA [("type", .vstr "urn:x"), ("title", .vstr "X"), ("status", .vint 500),
        ("detail", .vstr "d")] "title" = some (.vstr "X") :=
  ⟨rfl, rfl, rfl, rfl⟩
